import Mathlib

/-!
Shallow embedding of `analyze_cmt.py`, a Salesforce custom-metadata-type
field-size audit tool, together with proofs about its behaviour.

Python dictionaries are modelled as association lists preserving insertion
order (`dget` / `dset`); values that may be absent (`dict.get`) are modelled
with `Option`; Python runtime errors that the source can raise are modelled
with the `PyError` type and `Except`.
-/

namespace AnalyzeCmt

/-- Python runtime errors that the modelled code can raise. -/
inductive PyError
  | typeError
  | valueError
  | attributeError
  | keyError
  | jsonDecodeError
deriving DecidableEq, Repr

/-- Lookup in an insertion-ordered dictionary (Python `d.get(k)` / `k in d`). -/
def dget {κ α : Type} [DecidableEq κ] : List (κ × α) → κ → Option α
  | [], _ => none
  | (k', v) :: rest, k => if k' = k then some v else dget rest k

/-- Update-or-append in an insertion-ordered dictionary (Python `d[k] = v`):
an existing key keeps its position, a new key is appended at the end. -/
def dset {κ α : Type} [DecidableEq κ] : List (κ × α) → κ → α → List (κ × α)
  | [], k, v => [(k, v)]
  | (k', v') :: rest, k, v =>
      if k' = k then (k, v) :: rest else (k', v') :: dset rest k v

theorem dget_dset_self {κ α : Type} [DecidableEq κ] (l : List (κ × α)) (k : κ) (v : α) :
    dget (dset l k v) k = some v := by
  induction l with
  | nil => simp [dget, dset]
  | cons hd tl ih =>
      obtain ⟨k', v'⟩ := hd
      by_cases h : k' = k
      · simp [dget, dset, h]
      · simp [dget, dset, h, ih]

theorem dget_dset_ne {κ α : Type} [DecidableEq κ] (l : List (κ × α)) (k k' : κ) (v : α)
    (h : k' ≠ k) : dget (dset l k v) k' = dget l k' := by
  have hne : ¬ k = k' := fun hh => h (Eq.symm hh)
  induction l with
  | nil => simp [dget, dset, hne]
  | cons hd tl ih =>
      obtain ⟨k0, v0⟩ := hd
      by_cases hk : k0 = k
      · subst hk
        simp [dget, dset, hne]
      · by_cases hk' : k0 = k'
        · subst hk'
          simp [dget, dset, hk, h]
        · simp [dget, dset, hk, hk', ih]

/-! ## Limit policy and schema classifier (`sObject_get_describe`) -/

/-- The `limit_map` constant from the source: field type → (attribute to
check, threshold). -/
def limit_map : List (String × (String × Int)) :=
  [("string", ("length", 250)), ("double", ("precision", 10))]

/-- Python `field.get('type') in limit_map` / `limit_map.get(field_type)`:
`None` is not a key of `limit_map`. -/
def limitFor : Option String → Option (String × Int)
  | none => none
  | some t => dget limit_map t

/-- One raw field entry of the describe JSON; each attribute is optional
because the source accesses them with `dict.get`. -/
structure RawField where
  name : Option String
  custom : Option Bool
  type : Option String
  length : Option Int
  precision : Option Int
  extraTypeInfo : Option String
deriving DecidableEq, Repr

/-- Python `field.get(field_for_length)` where `field_for_length` is the
policy-designated attribute name ("length" or "precision"). -/
def RawField.getAttr (f : RawField) (a : String) : Option Int :=
  if a = "length" then f.length else if a = "precision" then f.precision else none

/-- The field-information dictionary built for each flagged field; note the
source stores the field type under the `digits` key as well. -/
structure FieldInfo where
  name : Option String
  length : Option Int
  type : Option String
  digits : Option String
  precision : Option Int
  extraTypeInfo : Option String
deriving DecidableEq, Repr

/-- Construction of the `field_info` dictionary from a raw field. -/
def mkFieldInfo (f : RawField) : FieldInfo :=
  ⟨f.name, f.length, f.type, f.type, f.precision, f.extraTypeInfo⟩

/-- The field-selection loop of `sObject_get_describe` (lines 47-62).
A custom field with a type known to `limit_map` but whose designated
attribute is absent makes Python evaluate `None > threshold`, raising
`TypeError` (uncaught by the surrounding `except CalledProcessError`). -/
def classifyFields : List RawField → Except PyError (List FieldInfo)
  | [] => .ok []
  | field :: rest =>
      if field.custom = some true then
        match limitFor field.type with
        | some (attr, threshold) =>
            match field.getAttr attr with
            | none => .error .typeError
            | some field_length =>
                if field_length > threshold then
                  match classifyFields rest with
                  | .error e => .error e
                  | .ok out => .ok (mkFieldInfo field :: out)
                else classifyFields rest
        | none => classifyFields rest
      else classifyFields rest

/-- Predicate: the field's type is known to the limit policy and its value
for the policy-designated attribute strictly exceeds the threshold (an
absent attribute counts as not exceeding). -/
def exceedsPolicy (f : RawField) : Bool :=
  match limitFor f.type with
  | some (attr, threshold) =>
      match f.getAttr attr with
      | some v => decide (v > threshold)
      | none => false
  | none => false

/-! ## Query planner (`generate_sf_queries`) -/

/-- `results_map` in `main`: keys are the `name` attribute of the describe
payload, which `dict.get` may return as `None`. -/
abbrev RMap := List (Option String × List FieldInfo)

/-- Python `str(x)` on a dictionary key that may be `None`. -/
def pyStrOpt : Option String → String
  | some s => s
  | none => "None"

/-- The generator `field.get('name') for field in fields if field.get('name')`:
keeps names that are truthy (present and non-empty). -/
def truthyNames (fields : List FieldInfo) : List String :=
  fields.filterMap fun f =>
    match f.name with
    | some n => if n = "" then none else some n
    | none => none

/-- Python `", ".join`. -/
def joinComma : List String → String
  | [] => ""
  | [s] => s
  | s :: rest => s ++ ", " ++ joinComma rest

/-- The query string built for one metadata type (the f-string at line 177). -/
def mkQueryString (mdt : Option String) (fields : List FieldInfo) : String :=
  "sf data query --json --query \"SELECT " ++ joinComma (truthyNames fields) ++
    " FROM " ++ pyStrOpt mdt ++ "\""

/-- `generate_sf_queries`: one query per metadata type whose field list is
truthy (non-empty), in dictionary iteration order. -/
def generate_sf_queries : RMap → List String
  | [] => []
  | (mdt, fields) :: rest =>
      if fields.isEmpty then generate_sf_queries rest
      else mkQueryString mdt fields :: generate_sf_queries rest

/-! ## Statistics aggregator (`analyze_field_lengths`) -/

/-- A JSON value stored under one key of a query-result record. `scalar s`
is a non-null value whose Python `str()` rendering is `s`; `attrs` is the
`attributes` sub-dictionary with its optional `type` entry. -/
inductive PyVal
  | pynull
  | scalar (s : String)
  | attrs (ty : Option String)
deriving DecidableEq, Repr

/-- One record of a query result: an insertion-ordered dictionary. -/
abbrev Record := List (String × PyVal)

/-- The `result` sub-object of a parsed query response; both members are
accessed defensively in the source, hence optional. -/
structure QueryPayload where
  totalSize : Option Int
  records : Option (List Record)
deriving DecidableEq, Repr

/-- A parsed query response. -/
structure QueryResult where
  result : Option QueryPayload
deriving DecidableEq, Repr

/-- The per-field statistics dictionary (lines 269-275). -/
structure FieldStat where
  longest : Nat
  shortest : Nat
  count : Nat
  field_length : Option Int
  extraTypeInfo : String
deriving DecidableEq, Repr

/-- Per-object statistics dictionary. -/
abbrev ObjStats := List (String × FieldStat)

/-- The nested `stats` dictionary returned by the aggregator. -/
abbrev Stats := List (String × ObjStats)

/-- Lines 234-237: the record's object tag, `"Unknown"` when the
`attributes.type` annotation is missing. -/
def recordTag (r : Record) : String :=
  match dget r "attributes" with
  | some (.attrs (some t)) => t
  | _ => "Unknown"

/-- Line 265: `len(str(value)) if value is not None else 0`. An `attrs`
value occurs only under the skipped `attributes` key. -/
def valueLength : PyVal → Nat
  | .pynull => 0
  | .scalar s => s.length
  | .attrs _ => 0

/-- The descriptor scan of lines 249-263: starting from defaults `(0, '')`,
the first descriptor whose `name` equals the record field sets the declared
length (from `length` for strings, `precision` for doubles) and maps the raw
subtype code to its human label, then breaks. -/
def lookupFieldMeta : List FieldInfo → String → Option Int × String
  | [], _ => (some 0, "")
  | field_n :: rest, field =>
      if field_n.name = some field then
        let extraTypeInfo :=
          if field_n.extraTypeInfo = some "externallookup" then "Lookup"
          else if field_n.extraTypeInfo = some "plaintextarea" then "TextArea"
          else ""
        let current_field_length : Option Int :=
          if field_n.type = some "string" then field_n.length
          else if field_n.type = some "double" then field_n.precision
          else some 0
        (current_field_length, extraTypeInfo)
      else lookupFieldMeta rest field

/-- Line 248 combined with the scan: `results_map.get(cmd_name, [])` looked
up with the record's tag (a plain string compares equal only to a `some`
key), then the descriptor scan for the field. -/
def fieldMeta (rm : RMap) (cmd_name field : String) : Option Int × String :=
  lookupFieldMeta ((dget rm (some cmd_name)).getD []) field

/-- Lines 248-280 for one non-`attributes` field of a record: create the
stat on first sight, otherwise update longest/shortest/count in place
(declared length and subtype label are set only at creation). -/
def updateStat (rm : RMap) (cmd_name field : String) (value : PyVal) (stats : Stats) : Stats :=
  let meta := fieldMeta rm cmd_name field
  let value_length := valueLength value
  let objStats := (dget stats cmd_name).getD []
  match dget objStats field with
  | none =>
      dset stats cmd_name (dset objStats field ⟨value_length, value_length, 1, meta.1, meta.2⟩)
  | some st =>
      dset stats cmd_name (dset objStats field
        ⟨max st.longest value_length, min st.shortest value_length, st.count + 1,
          st.field_length, st.extraTypeInfo⟩)

/-- The loop over `record.items()` (lines 244-280), skipping the reserved
`attributes` key. -/
def processFields (rm : RMap) (cmd_name : String) : List (String × PyVal) → Stats → Stats
  | [], stats => stats
  | (field, value) :: rest, stats =>
      if field = "attributes" then processFields rm cmd_name rest stats
      else processFields rm cmd_name rest (updateStat rm cmd_name field value stats)

/-- One record (lines 232-280): resolve the tag, create the per-object
dictionary if absent, then process every field. -/
def processRecord (rm : RMap) (stats : Stats) (r : Record) : Stats :=
  let cmd_name := recordTag r
  let stats1 := if (dget stats cmd_name).isSome then stats else dset stats cmd_name []
  processFields rm cmd_name r stats1

/-- The loop over `records`. -/
def processRecords (rm : RMap) : List Record → Stats → Stats
  | [], stats => stats
  | r :: rest, stats => processRecords rm rest (processRecord rm stats r)

/-- The outer loop over `query_results` (lines 225-230): a result without a
`result`/`records` member is reported and skipped. -/
def analyzeGo (rm : RMap) : List QueryResult → Stats → Stats
  | [], stats => stats
  | qr :: rest, stats =>
      match qr.result with
      | none => analyzeGo rm rest stats
      | some payload =>
          match payload.records with
          | none => analyzeGo rm rest stats
          | some records => analyzeGo rm rest (processRecords rm records stats)

/-- `analyze_field_lengths(query_results, results_map)`. -/
def analyze_field_lengths (query_results : List QueryResult) (results_map : RMap) : Stats :=
  analyzeGo results_map query_results []

/-- Lookup in the nested stats dictionary. -/
def dget2 (stats : Stats) (o f : String) : Option FieldStat :=
  match dget stats o with
  | none => none
  | some objStats => dget objStats f

/-! ## External collaborators and `main` -/

/-- Outcome of the external `sf sobject describe` process for one object. -/
inductive DescribeOutcome
  | procFailure
  | badJson
  | success (name : Option String) (fields : List RawField)

/-- The dynamically-typed return value of `sObject_get_describe`: a 2-tuple
on success, the bare empty list `[]` on `CalledProcessError`. -/
inductive DescribeRet
  | tuple (name : Option String) (fields : List FieldInfo)
  | emptyList
deriving DecidableEq, Repr

/-- `sObject_get_describe`: the `except CalledProcessError` handler returns
`[]`; a JSON parse error or the classifier's `TypeError` propagate. -/
def sObject_get_describe : DescribeOutcome → Except PyError DescribeRet
  | .procFailure => .ok .emptyList
  | .badJson => .error .jsonDecodeError
  | .success name fields =>
      match classifyFields fields with
      | .error e => .error e
      | .ok field_information => .ok (.tuple name field_information)

/-- One metadata record of the org listing. -/
structure MetaRec where
  fullName : Option String
deriving DecidableEq, Repr

/-- Outcome of the external `sf org list metadata` process. -/
inductive ListingOutcome
  | procFailure
  | badJson
  | response (status : Option Int) (result : Option (List MetaRec))

/-- The dynamically-typed return value of `get_all_objects_from_org`: the
parsed dictionary on success, the bare empty list `[]` on process failure or
non-zero status. -/
inductive ListingRet
  | dict (status : Option Int) (result : Option (List MetaRec))
  | emptyList
deriving DecidableEq, Repr

/-- `get_all_objects_from_org`: `data.get('status') != 0` (also true when
the key is absent) yields the empty list, as does `CalledProcessError`. -/
def get_all_objects_from_org : ListingOutcome → Except PyError ListingRet
  | .procFailure => .ok .emptyList
  | .badJson => .error .jsonDecodeError
  | .response status result =>
      if status ≠ some 0 then .ok .emptyList else .ok (.dict status result)

/-- `filter_cmdt_out(json)`: calls `json.get('result', [])`, which raises
`AttributeError` when the argument is the bare list `[]`; otherwise keeps the
`fullName` of records whose name ends with `__mdt`. -/
def filter_cmdt_out : ListingRet → Except PyError (List String)
  | .emptyList => .error .attributeError
  | .dict _ result =>
      .ok ((result.getD []).filterMap fun record =>
        match record.fullName with
        | some n => if n.endsWith "__mdt" then some n else none
        | none => none)

/-- Outcome of one external `sf data query` process. -/
inductive QueryOutcome
  | parsed (qr : QueryResult)
  | parseFailure

/-- `execute_query`: a response that fails to parse as JSON becomes `None`. -/
def execute_query : QueryOutcome → Option QueryResult
  | .parsed qr => some qr
  | .parseFailure => none

/-- The external world `main` runs against. -/
structure Org where
  listing : ListingOutcome
  describe : String → DescribeOutcome
  query : String → QueryOutcome

/-- One external process invocation made by the run. -/
inductive ExtCall
  | listMetadata
  | describe (sObject : String)
  | runQuery (query : String)
deriving DecidableEq, Repr

/-- How a run of `main` ends. -/
inductive MainOutcome
  | usageError
  | completed (stats : Stats)
  | crashed (e : PyError)
deriving DecidableEq, Repr

/-- A run of `main`: the external calls it made, in order, and its end. -/
structure MainResult where
  calls : List ExtCall
  outcome : MainOutcome
deriving DecidableEq, Repr

/-- The process exit code for each outcome: `main` returns normally on the
usage error and after a completed run (Python exits 0); an uncaught
exception makes the interpreter exit 1. -/
def exitCode : MainOutcome → Nat
  | .usageError => 0
  | .completed _ => 0
  | .crashed _ => 1

/-- The describe loop of `main` (lines 373-376). The tuple assignment
`res, fields = sObject_get_describe(...)` raises `ValueError` when the
callee returned the empty list. -/
def describeLoop (describe : String → DescribeOutcome) :
    List String → RMap → List ExtCall × Except PyError RMap
  | [], rm => ([], .ok rm)
  | sObject_name :: rest, rm =>
      match sObject_get_describe (describe sObject_name) with
      | .error e => ([.describe sObject_name], .error e)
      | .ok .emptyList => ([.describe sObject_name], .error .valueError)
      | .ok (.tuple res fields) =>
          let next := describeLoop describe rest (dset rm res fields)
          (.describe sObject_name :: next.1, next.2)

/-- The query loop of `main` (lines 380-383): failed parses are dropped. -/
def queryLoop (query : String → QueryOutcome) : List String → List ExtCall × List QueryResult
  | [] => ([], [])
  | q :: qs =>
      let rest := queryLoop query qs
      match execute_query (query q) with
      | some r => (.runQuery q :: rest.1, r :: rest.2)
      | none => (.runQuery q :: rest.1, rest.2)

/-- The sort key `x['result']['totalSize']` (line 386); a missing member
raises `KeyError`. -/
def sortKeyOf (qr : QueryResult) : Option Int :=
  match qr.result with
  | none => none
  | some p => p.totalSize

/-- Pair each result with its sort key, failing if any key is missing. -/
def keyedList : List QueryResult → Option (List (QueryResult × Int))
  | [] => some []
  | qr :: rest =>
      match sortKeyOf qr, keyedList rest with
      | some k, some ks => some ((qr, k) :: ks)
      | _, _ => none

/-- Stable insertion for a descending sort: an element passes over strictly
larger keys and stops before the first key not larger than its own. -/
def insDesc (x : QueryResult × Int) : List (QueryResult × Int) → List (QueryResult × Int)
  | [] => [x]
  | y :: rest => if y.2 > x.2 then y :: insDesc x rest else x :: y :: rest

/-- Stable descending insertion sort over keyed results. -/
def sortKeyed : List (QueryResult × Int) → List (QueryResult × Int)
  | [] => []
  | x :: rest => insDesc x (sortKeyed rest)

/-- `sorted(results_of_queries, key=lambda x: x['result']['totalSize'],
reverse=True)`. -/
def sortPhase (l : List QueryResult) : Except PyError (List QueryResult) :=
  match keyedList l with
  | none => .error .keyError
  | some kl => .ok ((sortKeyed kl).map Prod.fst)

/-- The pipeline shared by both selection modes of `main` (lines 368-399):
describe every object, plan and execute queries, sort, aggregate. -/
def pipeline (org : Org) (mdt_list : List String) (calls0 : List ExtCall) : MainResult :=
  match describeLoop org.describe mdt_list [] with
  | (dcalls, .error e) => ⟨calls0 ++ dcalls, .crashed e⟩
  | (dcalls, .ok results_map) =>
      let queries := generate_sf_queries results_map
      let qres := queryLoop org.query queries
      match sortPhase qres.2 with
      | .error e => ⟨calls0 ++ dcalls ++ qres.1, .crashed e⟩
      | .ok sorted_results =>
          ⟨calls0 ++ dcalls ++ qres.1,
            .completed (analyze_field_lengths sorted_results results_map)⟩

/-- The parsed command-line arguments. -/
structure Args where
  f : Bool
  l : Option (List String)
  c : Bool
  o : String
  m : Bool

/-- Python truthiness of `args.l` (`None` and the empty list are falsy). -/
def truthyList : Option (List String) → Bool
  | none => false
  | some [] => false
  | some (_ :: _) => true

/-- `main` (lines 353-399): discovery mode, explicit-list mode, or the
usage message followed by a plain `return`. -/
def mainRun (args : Args) (org : Org) : MainResult :=
  if args.f then
    match get_all_objects_from_org org.listing with
    | .error e => ⟨[.listMetadata], .crashed e⟩
    | .ok all_objects =>
        match filter_cmdt_out all_objects with
        | .error e => ⟨[.listMetadata], .crashed e⟩
        | .ok mdt_list => pipeline org mdt_list [.listMetadata]
  else if truthyList args.l then
    pipeline org (args.l.getD []) []
  else ⟨[], .usageError⟩

/-! ## State-passing view of the aggregator

To state the frame property of `analyze_field_lengths` the aggregator is
re-expressed over an explicit state holding the two input objects and the
`stats` accumulator; every assignment the source performs targets the
`stats` variable, and the theorems below show the two input components are
returned unchanged. -/

/-- The objects in scope during `analyze_field_lengths`. -/
structure AggState where
  query_results : List QueryResult
  results_map : RMap
  stats : Stats
deriving DecidableEq, Repr

/-- State-passing form of the `record.items()` loop. -/
def processFieldsS (cmd_name : String) : List (String × PyVal) → AggState → AggState
  | [], s => s
  | (field, value) :: rest, s =>
      if field = "attributes" then processFieldsS cmd_name rest s
      else processFieldsS cmd_name rest
        { s with stats := updateStat s.results_map cmd_name field value s.stats }

/-- State-passing form of processing one record. -/
def processRecordS (r : Record) (s : AggState) : AggState :=
  let cmd_name := recordTag r
  let s1 := if (dget s.stats cmd_name).isSome then s
            else { s with stats := dset s.stats cmd_name [] }
  processFieldsS cmd_name r s1

/-- State-passing form of the `records` loop. -/
def processRecordsS : List Record → AggState → AggState
  | [], s => s
  | r :: rest, s => processRecordsS rest (processRecordS r s)

/-- State-passing form of the `query_results` loop. -/
def analyzeGoS : List QueryResult → AggState → AggState
  | [], s => s
  | qr :: rest, s =>
      match qr.result with
      | none => analyzeGoS rest s
      | some payload =>
          match payload.records with
          | none => analyzeGoS rest s
          | some records => analyzeGoS rest (processRecordsS records s)

/-- State-passing `analyze_field_lengths`: `stats = {}` is freshly
initialised at entry (line 223), then the loops run. -/
def analyze_field_lengths_st (s : AggState) : AggState :=
  analyzeGoS s.query_results { s with stats := [] }

theorem processFieldsS_eq (cmd_name : String) (items : List (String × PyVal)) (s : AggState) :
    processFieldsS cmd_name items s =
      { s with stats := processFields s.results_map cmd_name items s.stats } := by
  induction items generalizing s with
  | nil => simp [processFieldsS, processFields]
  | cons hd tl ih =>
      obtain ⟨field, value⟩ := hd
      by_cases h : field = "attributes"
      · simp [processFieldsS, processFields, h, ih]
      · simp [processFieldsS, processFields, h, ih]

theorem processRecordS_eq (r : Record) (s : AggState) :
    processRecordS r s = { s with stats := processRecord s.results_map s.stats r } := by
  unfold processRecordS processRecord
  by_cases h : (dget s.stats (recordTag r)).isSome
  · simp [h, processFieldsS_eq]
  · simp [h, processFieldsS_eq]

theorem processRecordsS_eq (records : List Record) (s : AggState) :
    processRecordsS records s =
      { s with stats := processRecords s.results_map records s.stats } := by
  induction records generalizing s with
  | nil => simp [processRecordsS, processRecords]
  | cons r rest ih =>
      simp [processRecordsS, processRecords, processRecordS_eq, ih]

theorem analyzeGoS_eq (pending : List QueryResult) (s : AggState) :
    analyzeGoS pending s = { s with stats := analyzeGo s.results_map pending s.stats } := by
  induction pending generalizing s with
  | nil => simp [analyzeGoS, analyzeGo]
  | cons qr rest ih =>
      match hqr : qr.result with
      | none => simp [analyzeGoS, analyzeGo, hqr, ih]
      | some payload =>
          match hp : payload.records with
          | none => simp [analyzeGoS, analyzeGo, hqr, hp, ih]
          | some records => simp [analyzeGoS, analyzeGo, hqr, hp, processRecordsS_eq, ih]

/-! ## Occurrence counting and the aggregator invariant -/

/-- Number of entries of a record's item list that the field loop processes
under the key `f` (the `attributes` key is skipped). -/
def occItems (f : String) : List (String × PyVal) → Nat
  | [] => 0
  | (k, _) :: rest => (if k = "attributes" then 0 else if k = f then 1 else 0) + occItems f rest

/-- Occurrences of field `f` contributed by one record to object `o`. -/
def occRecord (o f : String) (r : Record) : Nat :=
  if o = recordTag r then occItems f r else 0

/-- Occurrences over a record list. -/
def occRecords (o f : String) : List Record → Nat
  | [] => 0
  | r :: rest => occRecord o f r + occRecords o f rest

/-- Occurrences over the full query-result list, skipping results without a
`result`/`records` member exactly as the aggregator does. -/
def occResults (o f : String) : List QueryResult → Nat
  | [] => 0
  | qr :: rest =>
      (match qr.result with
       | none => 0
       | some p =>
           match p.records with
           | none => 0
           | some records => occRecords o f records) + occResults o f rest

/-- Flattened form of the nested lookup: reading through an absent object
entry behaves like reading an empty dictionary. -/
theorem dget2_eq_flat (stats : Stats) (o f : String) :
    dget2 stats o f = dget ((dget stats o).getD []) f := by
  unfold dget2
  cases dget stats o <;> simp [dget]

/-- The stat recorded for the updated (object, field) pair. -/
theorem dget2_updateStat_self (rm : RMap) (c fld : String) (v : PyVal) (stats : Stats) :
    dget2 (updateStat rm c fld v stats) c fld =
      some (match dget2 stats c fld with
        | none =>
            ⟨valueLength v, valueLength v, 1, (fieldMeta rm c fld).1, (fieldMeta rm c fld).2⟩
        | some st =>
            ⟨max st.longest (valueLength v), min st.shortest (valueLength v), st.count + 1,
              st.field_length, st.extraTypeInfo⟩) := by
  rw [dget2_eq_flat stats c fld]
  unfold updateStat
  cases h : dget ((dget stats c).getD []) fld with
  | none =>
      simp only [h]
      rw [dget2_eq_flat, dget_dset_self]
      simp [dget_dset_self]
  | some st =>
      simp only [h]
      rw [dget2_eq_flat, dget_dset_self]
      simp [dget_dset_self]

/-- Any other (object, field) pair is untouched by `updateStat`. -/
theorem dget2_updateStat_ne (rm : RMap) (c fld : String) (v : PyVal) (stats : Stats)
    (o f : String) (h : ¬(o = c ∧ f = fld)) :
    dget2 (updateStat rm c fld v stats) o f = dget2 stats o f := by
  unfold updateStat
  by_cases hoc : o = c
  · subst hoc
    have hf : f ≠ fld := fun hf => h ⟨rfl, hf⟩
    cases hd : dget ((dget stats o).getD []) fld with
    | none =>
        simp only [hd]
        rw [dget2_eq_flat, dget_dset_self]
        simp [dget_dset_ne _ _ _ _ hf, dget2_eq_flat]
    | some st =>
        simp only [hd]
        rw [dget2_eq_flat, dget_dset_self]
        simp [dget_dset_ne _ _ _ _ hf, dget2_eq_flat]
  · cases hd : dget ((dget stats c).getD []) fld with
    | none =>
        simp only [hd]
        rw [dget2_eq_flat, dget_dset_ne _ _ _ _ hoc, dget2_eq_flat]
    | some st =>
        simp only [hd]
        rw [dget2_eq_flat, dget_dset_ne _ _ _ _ hoc, dget2_eq_flat]

/-- The invariant maintained for each (object, field) pair: the stat exists
exactly with the running occurrence count, its shortest observed length
never exceeds the longest, and its declared-limit and subtype-label members
hold the (constant) classification lookup for that pair. -/
def statInv (rm : RMap) (o f : String) (stats : Stats) (n : Nat) : Prop :=
  match dget2 stats o f with
  | none => n = 0
  | some st =>
      st.count = n ∧ st.shortest ≤ st.longest ∧
        st.field_length = (fieldMeta rm o f).1 ∧ st.extraTypeInfo = (fieldMeta rm o f).2

/-- Transport a `statInv` along an arithmetic identity on the count. -/
theorem statInv_cast {rm : RMap} {o f : String} {s : Stats} {n m : Nat}
    (e : n = m) (h : statInv rm o f s n) : statInv rm o f s m := e ▸ h

theorem statInv_updateStat (rm : RMap) (o f c fld : String) (v : PyVal) (stats : Stats)
    (n : Nat) (h : statInv rm o f stats n) :
    statInv rm o f (updateStat rm c fld v stats) (n + if o = c ∧ f = fld then 1 else 0) := by
  by_cases hof : o = c ∧ f = fld
  · obtain ⟨hoc, hff⟩ := hof
    subst hoc; subst hff
    unfold statInv at h ⊢
    rw [dget2_updateStat_self]
    cases hd : dget2 stats o f with
    | none =>
        simp only [hd] at h ⊢
        subst h
        simp
    | some st =>
        simp only [hd] at h ⊢
        obtain ⟨hc, hsl, hfl, hextra⟩ := h
        refine ⟨by simp [hc], le_trans (min_le_right _ _) (le_max_right _ _), hfl, hextra⟩
  · unfold statInv at h ⊢
    rw [dget2_updateStat_ne rm c fld v stats o f hof]
    simpa [hof] using h

theorem statInv_processFields (rm : RMap) (o f c : String) (items : List (String × PyVal))
    (stats : Stats) (n : Nat) (h : statInv rm o f stats n) :
    statInv rm o f (processFields rm c items stats)
      (n + if o = c then occItems f items else 0) := by
  induction items generalizing stats n with
  | nil =>
      simpa [processFields, occItems] using h
  | cons hd tl ih =>
      obtain ⟨field, value⟩ := hd
      by_cases hattr : field = "attributes"
      · have h2 := ih stats n h
        have e : (n + if o = c then occItems f tl else 0) =
            (n + if o = c then occItems f ((field, value) :: tl) else 0) := by
          by_cases hoc : o = c <;> simp [occItems, hattr, hoc]
        have h3 : statInv rm o f (processFields rm c ((field, value) :: tl) stats)
            (n + if o = c then occItems f tl else 0) := by
          simpa [processFields, hattr] using h2
        exact statInv_cast e h3
      · have step := statInv_updateStat rm o f c field value stats n h
        have h2 := ih (updateStat rm c field value stats) _ step
        have e : ((n + if o = c ∧ f = field then 1 else 0) + if o = c then occItems f tl else 0) =
            (n + if o = c then occItems f ((field, value) :: tl) else 0) := by
          by_cases hoc : o = c
          · by_cases hfld : f = field
            · subst hfld
              simp [occItems, hattr, hoc]
              omega
            · have hne : ¬ field = f := fun hh => hfld (Eq.symm hh)
              simp [occItems, hattr, hoc, hfld, hne]
          · simp [occItems, hoc]
        have h3 : statInv rm o f (processFields rm c ((field, value) :: tl) stats)
            ((n + if o = c ∧ f = field then 1 else 0) + if o = c then occItems f tl else 0) := by
          simpa [processFields, hattr] using h2
        exact statInv_cast e h3

theorem statInv_processRecord (rm : RMap) (o f : String) (r : Record) (stats : Stats)
    (n : Nat) (h : statInv rm o f stats n) :
    statInv rm o f (processRecord rm stats r) (n + occRecord o f r) := by
  have h1 : statInv rm o f
      (if (dget stats (recordTag r)).isSome then stats else dset stats (recordTag r) []) n := by
    by_cases hex : (dget stats (recordTag r)).isSome
    · simpa [hex] using h
    · rw [if_neg hex]
      unfold statInv at h ⊢
      rw [dget2_eq_flat]
      by_cases hor : o = recordTag r
      · have hnone : dget stats (recordTag r) = none := by
          cases hg : dget stats (recordTag r) with
          | none => rfl
          | some os => rw [hg] at hex; simp at hex
        rw [hor, dget_dset_self]
        rw [dget2_eq_flat, hor, hnone] at h
        simpa [dget] using h
      · rw [dget_dset_ne _ _ _ _ hor, ← dget2_eq_flat]
        exact h
  have h2 := statInv_processFields rm o f (recordTag r) r _ n h1
  have h3 : statInv rm o f (processRecord rm stats r)
      (n + if o = recordTag r then occItems f r else 0) := by
    simpa [processRecord] using h2
  exact statInv_cast (by unfold occRecord; rfl) h3

theorem statInv_processRecords (rm : RMap) (o f : String) (records : List Record)
    (stats : Stats) (n : Nat) (h : statInv rm o f stats n) :
    statInv rm o f (processRecords rm records stats) (n + occRecords o f records) := by
  induction records generalizing stats n with
  | nil => simpa [processRecords, occRecords] using h
  | cons r rest ih =>
      have step := statInv_processRecord rm o f r stats n h
      have h2 := ih (processRecord rm stats r) _ step
      have e : (n + occRecord o f r) + occRecords o f rest =
          n + occRecords o f (r :: rest) := by
        simp [occRecords]
        omega
      have h3 : statInv rm o f (processRecords rm (r :: rest) stats)
          ((n + occRecord o f r) + occRecords o f rest) := by
        simpa [processRecords] using h2
      exact statInv_cast e h3

theorem statInv_analyzeGo (rm : RMap) (o f : String) (pending : List QueryResult)
    (stats : Stats) (n : Nat) (h : statInv rm o f stats n) :
    statInv rm o f (analyzeGo rm pending stats) (n + occResults o f pending) := by
  induction pending generalizing stats n with
  | nil => simpa [analyzeGo, occResults] using h
  | cons qr rest ih =>
      match hqr : qr.result with
      | none =>
          have h2 := ih stats n h
          have e : n + occResults o f rest = n + occResults o f (qr :: rest) := by
            simp [occResults, hqr]
          have h3 : statInv rm o f (analyzeGo rm (qr :: rest) stats)
              (n + occResults o f rest) := by
            simpa [analyzeGo, hqr] using h2
          exact statInv_cast e h3
      | some payload =>
          match hp : payload.records with
          | none =>
              have h2 := ih stats n h
              have e : n + occResults o f rest = n + occResults o f (qr :: rest) := by
                simp [occResults, hqr, hp]
              have h3 : statInv rm o f (analyzeGo rm (qr :: rest) stats)
                  (n + occResults o f rest) := by
                simpa [analyzeGo, hqr, hp] using h2
              exact statInv_cast e h3
          | some records =>
              have step := statInv_processRecords rm o f records stats n h
              have h2 := ih (processRecords rm records stats) _ step
              have e : (n + occRecords o f records) + occResults o f rest =
                  n + occResults o f (qr :: rest) := by
                simp [occResults, hqr, hp]
                omega
              have h3 : statInv rm o f (analyzeGo rm (qr :: rest) stats)
                  ((n + occRecords o f records) + occResults o f rest) := by
                simpa [analyzeGo, hqr, hp] using h2
              exact statInv_cast e h3

theorem statInv_analyze (rm : RMap) (o f : String) (query_results : List QueryResult) :
    statInv rm o f (analyze_field_lengths query_results rm) (occResults o f query_results) := by
  have h0 : statInv rm o f [] 0 := by
    unfold statInv
    simp [dget2, dget]
  have := statInv_analyzeGo rm o f query_results [] 0 h0
  simpa [analyze_field_lengths] using this

/-! ## From entry counts to record counts

A JSON object cannot repeat a key, so records coming from parsed query
responses have pairwise-distinct keys; under that assumption the per-entry
occurrence count equals the number of records containing the field. -/

/-- Keys of a record are pairwise distinct (always true of a Python dict). -/
def keysNodupB : List (String × PyVal) → Bool
  | [] => true
  | (k, _) :: rest => !(rest.any fun p => p.1 = k) && keysNodupB rest

/-- Every record in every well-formed query result has distinct keys. -/
def recordsKeysNodup (qrs : List QueryResult) : Bool :=
  qrs.all fun qr =>
    match qr.result with
    | none => true
    | some p =>
        match p.records with
        | none => true
        | some records => records.all keysNodupB

/-- The record contains the field under a non-`attributes` key. -/
def hasField (f : String) (r : Record) : Bool :=
  !(decide (f = "attributes")) && r.any fun p => p.1 = f

/-- Number of records with tag `o` containing field `f` in a record list. -/
def countRecsIn (o f : String) : List Record → Nat
  | [] => 0
  | r :: rest =>
      (if o = recordTag r then (if hasField f r then 1 else 0) else 0) + countRecsIn o f rest

/-- Number of records with tag `o` containing field `f` across all batches,
skipping results without a `result`/`records` member as the aggregator does. -/
def countRecordsWithField (o f : String) : List QueryResult → Nat
  | [] => 0
  | qr :: rest =>
      (match qr.result with
       | none => 0
       | some p =>
           match p.records with
           | none => 0
           | some records => countRecsIn o f records) + countRecordsWithField o f rest

theorem occItems_zero_of_no_key (f : String) (items : List (String × PyVal))
    (h : (items.any fun p => p.1 = f) = false) : occItems f items = 0 := by
  induction items with
  | nil => simp [occItems]
  | cons hd tl ih =>
      obtain ⟨k, v⟩ := hd
      simp only [List.any_cons, Bool.or_eq_false_iff] at h
      obtain ⟨hk, htl⟩ := h
      have hkf : ¬ k = f := by simpa using hk
      simp [occItems, hkf, ih htl]

theorem occItems_eq_indicator (f : String) (r : List (String × PyVal))
    (hnd : keysNodupB r = true) : occItems f r = if hasField f r then 1 else 0 := by
  induction r with
  | nil => simp [occItems, hasField]
  | cons hd tl ih =>
      obtain ⟨k, v⟩ := hd
      simp only [keysNodupB, Bool.and_eq_true, Bool.not_eq_true'] at hnd
      obtain ⟨hnk, hntl⟩ := hnd
      by_cases hattr : k = "attributes"
      · by_cases hfa : f = "attributes"
        · subst hfa
          rw [hattr] at hnk
          simp [occItems, hattr, occItems_zero_of_no_key _ tl hnk, hasField]
        · have hkf : ¬ k = f := fun hh => hfa (by rw [← hh, hattr])
          have hkfb : (decide (k = f)) = false := by simp [hkf]
          simp [occItems, hattr, ih hntl, hasField, hfa]
          rw [hkfb, Bool.false_or]
      · by_cases hkf : k = f
        · subst hkf
          have hocc : occItems k tl = 0 := occItems_zero_of_no_key k tl hnk
          simp [occItems, hattr, hocc, hasField, hattr]
        · have hkfb : (decide (k = f)) = false := by simp [hkf]
          simp [occItems, hattr, ih hntl, hasField, hkf]
          rw [hkfb, Bool.false_or]

theorem occRecords_eq_countRecsIn (o f : String) (records : List Record)
    (hnd : records.all keysNodupB = true) :
    occRecords o f records = countRecsIn o f records := by
  induction records with
  | nil => simp [occRecords, countRecsIn]
  | cons r rest ih =>
      simp only [List.all_cons, Bool.and_eq_true] at hnd
      obtain ⟨hr, hrest⟩ := hnd
      unfold occRecords countRecsIn occRecord
      rw [occItems_eq_indicator f r hr, ih hrest]

theorem occResults_eq_countRecords (o f : String) (qrs : List QueryResult)
    (hnd : recordsKeysNodup qrs = true) :
    occResults o f qrs = countRecordsWithField o f qrs := by
  induction qrs with
  | nil => simp [occResults, countRecordsWithField]
  | cons qr rest ih =>
      simp only [recordsKeysNodup, List.all_cons, Bool.and_eq_true] at hnd
      obtain ⟨hq, hrest⟩ := hnd
      unfold occResults countRecordsWithField
      rw [ih hrest]
      match hqr : qr.result with
      | none => simp [hqr]
      | some p =>
          match hp : p.records with
          | none => simp [hqr, hp]
          | some records =>
              have hq2 : records.all keysNodupB = true := by
                simpa [hqr, hp] using hq
              simp [hqr, hp, occRecords_eq_countRecsIn o f records hq2]

/-- A descriptor list with no entry named `f` resolves to the default
metadata `(0, '')`. -/
theorem lookupFieldMeta_no_match (l : List FieldInfo) (f : String)
    (h : ∀ fi ∈ l, fi.name ≠ some f) : lookupFieldMeta l f = (some 0, "") := by
  induction l with
  | nil => simp [lookupFieldMeta]
  | cons fi rest ih =>
      have hfi : fi.name ≠ some f := h fi (by simp)
      have hrest : ∀ x ∈ rest, x.name ≠ some f := fun x hx => h x (by simp [hx])
      simp [lookupFieldMeta, hfi, ih hrest]

/-! ## Claim theorems -/

/-- Concrete world in which every describe process exits non-zero. -/
def orgDescribeFails : Org :=
  ⟨.response (some 0) (some []), fun _ => .procFailure, fun _ => .parseFailure⟩

/-- Explicit-list invocation naming a single object. -/
def argsExplicitOne : Args := ⟨false, some ["Broken__mdt"], false, "output.csv", false⟩

/-- C1: the claim says a failed describe is converted into an empty result,
the object is skipped and the run continues. The handler in
`sObject_get_describe` does return `[]`, but the caller unpacks that empty
list into the tuple `res, fields`, so the run crashes with `ValueError`
instead of continuing: evaluating `main` on a single object whose describe
process fails ends in a crash after exactly that one external call. -/
theorem describe_failure_crashes_run :
    mainRun argsExplicitOne orgDescribeFails =
      ⟨[ExtCall.describe "Broken__mdt"], MainOutcome.crashed PyError.valueError⟩ := rfl

/-- C2: in the aggregated result every recorded (object, field) stat has a
non-negative shortest length bounded by the longest length, and its count
equals the number of records (with their JSON-unique keys) tagged with that
object that contain the field. -/
theorem aggregator_stat_invariants (query_results : List QueryResult) (rm : RMap)
    (o f : String) (st : FieldStat)
    (hnd : recordsKeysNodup query_results = true)
    (h : dget2 (analyze_field_lengths query_results rm) o f = some st) :
    0 ≤ st.shortest ∧ st.shortest ≤ st.longest ∧
      st.count = countRecordsWithField o f query_results := by
  have inv := statInv_analyze rm o f query_results
  unfold statInv at inv
  rw [h] at inv
  obtain ⟨hc, hsl, _, _⟩ := inv
  exact ⟨Nat.zero_le _, hsl,
    by rw [hc, occResults_eq_countRecords o f query_results hnd]⟩

/-- A record tagged `A__mdt` with value "abc" for `Name__c`. -/
def recW1 : Record := [("attributes", PyVal.attrs (some "A__mdt")), ("Name__c", PyVal.scalar "abc")]

/-- A record tagged `A__mdt` with value "abcdef" for `Name__c`. -/
def recW2 : Record :=
  [("attributes", PyVal.attrs (some "A__mdt")), ("Name__c", PyVal.scalar "abcdef")]

/-- One query batch holding the two records above. -/
def qrsW : List QueryResult := [⟨some ⟨some 2, some [recW1, recW2]⟩⟩]

/-- The stat the aggregator computes for (`A__mdt`, `Name__c`) on `qrsW`. -/
def statW : FieldStat := ⟨6, 3, 2, some 0, ""⟩

/-- Witness for C2 at the two-record batch: longest 6, shortest 3, count 2. -/
theorem aggregator_stat_invariants_example :
    0 ≤ statW.shortest ∧ statW.shortest ≤ statW.longest ∧
      statW.count = countRecordsWithField "A__mdt" "Name__c" qrsW :=
  aggregator_stat_invariants qrsW [] "A__mdt" "Name__c" statW rfl rfl

/-- C3: whenever the classifier loop completes without raising, its output
is exactly the source-ordered sublist of fields that are custom and exceed
their type's policy threshold, each turned into a field-info entry. -/
theorem classifier_output_characterisation (fields : List RawField) (out : List FieldInfo)
    (h : classifyFields fields = Except.ok out) :
    out = (fields.filter fun fd => decide (fd.custom = some true) && exceedsPolicy fd).map
      mkFieldInfo := by
  induction fields generalizing out with
  | nil =>
      simp [classifyFields] at h
      simp [← h]
  | cons fld rest ih =>
      simp only [classifyFields] at h
      split at h
      · rename_i hc
        split at h
        · rename_i attr threshold hl
          split at h
          · rename_i ha
            exact absurd h (by simp)
          · rename_i v ha
            split at h
            · rename_i hv
              split at h
              · rename_i e hrest
                exact absurd h (by simp)
              · rename_i out2 hrest
                have hrec := ih _ hrest
                simp only [Except.ok.injEq] at h
                subst h
                simp [List.filter_cons, exceedsPolicy, hl, ha, hc, hv, hrec]
            · rename_i hv
              have hrec := ih _ h
              simp [List.filter_cons, exceedsPolicy, hl, ha, hc, hv, hrec]
        · rename_i hl
          have hrec := ih _ h
          simp [List.filter_cons, exceedsPolicy, hl, hc, hrec]
      · rename_i hc
        have hrec := ih _ h
        simp [List.filter_cons, hc, hrec]

/-- A custom string field of declared length 300 (exceeds 250). -/
def rawOk : RawField := ⟨some "Big__c", some true, some "string", some 300, none, none⟩

/-- A custom string field of declared length 100 (within 250). -/
def rawSmall : RawField := ⟨some "Small__c", some true, some "string", some 100, none, none⟩

/-- A non-custom string field of declared length 300. -/
def rawStd : RawField := ⟨some "Std__c", some false, some "string", some 300, none, none⟩

/-- The three-field example list from the spec's testable properties. -/
def fieldsW : List RawField := [rawOk, rawSmall, rawStd]

/-- Witness for C3: only the custom, over-threshold field is kept. -/
theorem classifier_output_example :
    classifyFields fieldsW = Except.ok [mkFieldInfo rawOk] ∧
    [mkFieldInfo rawOk] =
      (fieldsW.filter fun fd => decide (fd.custom = some true) && exceedsPolicy fd).map
        mkFieldInfo :=
  ⟨rfl, classifier_output_characterisation fieldsW [mkFieldInfo rawOk] rfl⟩

/-- A custom string field whose metadata lacks the `length` attribute. -/
def rawMissingLen : RawField := ⟨some "Broken__c", some true, some "string", none, none, none⟩

/-- C4: the claim says a custom field of a known type whose designated
attribute is absent is skipped without crashing; the code instead evaluates
`None > 250`, which raises `TypeError` in Python 3, so the classifier
crashes on such a field. -/
theorem missing_attribute_crashes_classifier :
    classifyFields [rawMissingLen] = Except.error PyError.typeError := rfl

/-- Concrete world in which the org listing reports status 1. -/
def orgBadStatus : Org :=
  ⟨.response (some 1) (some []), fun _ => .procFailure, fun _ => .parseFailure⟩

/-- Discovery-mode invocation. -/
def argsDiscovery : Args := ⟨true, none, false, "output.csv", false⟩

/-- C5: the claim says a non-success listing status degrades to an empty
object list and the run proceeds. `get_all_objects_from_org` does return
the empty list, but `main` then passes that list to `filter_cmdt_out`,
whose `json.get('result', [])` call raises `AttributeError` on a list, so
the run crashes right after the single listing call. -/
theorem listing_failure_crashes_run :
    mainRun argsDiscovery orgBadStatus =
      ⟨[ExtCall.listMetadata], MainOutcome.crashed PyError.attributeError⟩ := rfl

/-- Invocation with neither `-f` nor `-l`. -/
def argsNoMode : Args := ⟨false, none, false, "output.csv", false⟩

/-- A world whose every external call would fail (none is made). -/
def orgQuiet : Org := ⟨.procFailure, fun _ => .procFailure, fun _ => .parseFailure⟩

/-- C6 counterexample: with no selection mode the run does abort with the
usage message and makes no external calls, but `main` merely `return`s, so
the process exit code is 0, not non-zero as claimed. -/
theorem no_mode_exits_zero :
    (mainRun argsNoMode orgQuiet).calls = [] ∧
    (mainRun argsNoMode orgQuiet).outcome = MainOutcome.usageError ∧
    ¬ exitCode (mainRun argsNoMode orgQuiet).outcome ≠ 0 :=
  ⟨rfl, rfl, fun h => h rfl⟩

/-- C6 amended: if neither the discovery flag nor a (non-empty) explicit
object list is given, the process aborts immediately with the usage
message, executes no external calls, and exits with exit code 0. -/
theorem no_mode_aborts_without_calls (args : Args) (org : Org)
    (hf : args.f = false) (hl : truthyList args.l = false) :
    mainRun args org = ⟨[], MainOutcome.usageError⟩ ∧
    exitCode (mainRun args org).outcome = 0 := by
  have hmain : mainRun args org = ⟨[], MainOutcome.usageError⟩ := by
    unfold mainRun
    rw [hf, hl]
    simp
  exact ⟨hmain, by rw [hmain]; rfl⟩

/-- Witness for the amended C6 at a concrete argument vector. -/
theorem no_mode_aborts_example :
    mainRun argsNoMode orgQuiet = ⟨[], MainOutcome.usageError⟩ ∧
    exitCode (mainRun argsNoMode orgQuiet).outcome = 0 :=
  no_mode_aborts_without_calls argsNoMode orgQuiet rfl rfl

/-- A flagged field named `FieldA__c`. -/
def fiA : FieldInfo := ⟨some "FieldA__c", some 300, some "string", some "string", none, none⟩

/-- A flagged field named `FieldB__c`. -/
def fiB : FieldInfo :=
  ⟨some "FieldB__c", some 400, some "string", some "string", none, some "plaintextarea"⟩

/-- C7: the planner emits queries exactly for the objects with a non-empty
classified field list (dropping empty entries changes nothing and the
output count equals the number of non-empty entries), and on a two-object
schema with one empty entry it produces exactly one query selecting the
flagged field names of the non-empty object. -/
theorem planner_skips_empty_objects (rm : RMap) :
    generate_sf_queries rm = generate_sf_queries (rm.filter fun p => !p.2.isEmpty) ∧
    (generate_sf_queries rm).length = (rm.filter fun p => !p.2.isEmpty).length ∧
    generate_sf_queries [(some "A__mdt", [fiA, fiB]), (some "B__mdt", [])] =
      ["sf data query --json --query \"SELECT FieldA__c, FieldB__c FROM A__mdt\""] := by
  refine ⟨?_, ?_, rfl⟩
  · induction rm with
    | nil => rfl
    | cons hd tl ih =>
        obtain ⟨mdt, fields⟩ := hd
        by_cases he : fields.isEmpty
        · simp [generate_sf_queries, List.filter_cons, he, ih]
        · simp [generate_sf_queries, List.filter_cons, he, ih]
  · induction rm with
    | nil => rfl
    | cons hd tl ih =>
        obtain ⟨mdt, fields⟩ := hd
        by_cases he : fields.isEmpty
        · simp [generate_sf_queries, List.filter_cons, he, ih]
        · simp [generate_sf_queries, List.filter_cons, he, ih]

/-- C8: during aggregation the descriptor scan maps the raw subtype code
`externallookup` to the label `Lookup`, `plaintextarea` to `TextArea`, and
every other code (including an absent one) to the empty label. -/
theorem subtype_code_mapping (fi : FieldInfo) (fld : String) (h : fi.name = some fld) :
    (fi.extraTypeInfo = some "externallookup" →
        (lookupFieldMeta [fi] fld).2 = "Lookup") ∧
    (fi.extraTypeInfo = some "plaintextarea" →
        (lookupFieldMeta [fi] fld).2 = "TextArea") ∧
    (∀ c, fi.extraTypeInfo = c → c ≠ some "externallookup" → c ≠ some "plaintextarea" →
        (lookupFieldMeta [fi] fld).2 = "") := by
  refine ⟨?_, ?_, ?_⟩
  · intro he
    simp [lookupFieldMeta, h, he]
  · intro he
    simp [lookupFieldMeta, h, he]
  · intro c hc h1 h2
    simp [lookupFieldMeta, h, hc, h1, h2]

/-- A descriptor for `Ref__c` with subtype code `externallookup`. -/
def fiLookup : FieldInfo :=
  ⟨some "Ref__c", some 300, some "string", some "string", none, some "externallookup"⟩

/-- Witness for C8 at the `externallookup` descriptor. -/
theorem subtype_code_mapping_example :
    (lookupFieldMeta [fiLookup] "Ref__c").2 = "Lookup" :=
  (subtype_code_mapping fiLookup "Ref__c" rfl).1 rfl

/-- C9: when no descriptor of the record's tag matches a (non-`attributes`)
field that occurs in at least one record with that tag — in particular when
the tag has no schema entry at all or fell back to `Unknown` — the
aggregator still creates the stat for that pair, with declared limit 0 and
empty subtype label, while the count accumulates normally. -/
theorem aggregator_unclassified_defaults (query_results : List QueryResult) (rm : RMap)
    (t f : String)
    (hmeta : ∀ fi ∈ (dget rm (some t)).getD [], fi.name ≠ some f)
    (hocc : 0 < occResults t f query_results) :
    ∃ st, dget2 (analyze_field_lengths query_results rm) t f = some st ∧
      st.field_length = some 0 ∧ st.extraTypeInfo = "" ∧
      st.count = occResults t f query_results := by
  have inv := statInv_analyze rm t f query_results
  unfold statInv at inv
  cases hd : dget2 (analyze_field_lengths query_results rm) t f with
  | none => rw [hd] at inv; omega
  | some st =>
      rw [hd] at inv
      obtain ⟨hc, _, hfl, hextra⟩ := inv
      have hm : fieldMeta rm t f = (some 0, "") := by
        unfold fieldMeta
        exact lookupFieldMeta_no_match _ f hmeta
      exact ⟨st, rfl, by rw [hfl, hm], by rw [hextra, hm], hc⟩

/-- Witness for C9: on the two-record batch with an empty classified map
the stat exists with declared limit 0 and empty label. -/
theorem aggregator_unclassified_example :
    ∃ st, dget2 (analyze_field_lengths qrsW []) "A__mdt" "Name__c" = some st ∧
      st.field_length = some 0 ∧ st.extraTypeInfo = "" ∧
      st.count = occResults "A__mdt" "Name__c" qrsW :=
  aggregator_unclassified_defaults qrsW [] "A__mdt" "Name__c" (by simp [dget]) (by decide)

/-- C10: the aggregator leaves both inputs untouched and its resulting
statistics are freshly built from them, independent of any prior contents
of the accumulator component. -/
theorem aggregator_frame_conditions (s : AggState) :
    (analyze_field_lengths_st s).query_results = s.query_results ∧
    (analyze_field_lengths_st s).results_map = s.results_map ∧
    (analyze_field_lengths_st s).stats = analyze_field_lengths s.query_results s.results_map := by
  unfold analyze_field_lengths_st
  rw [analyzeGoS_eq]
  exact ⟨rfl, rfl, rfl⟩

end AnalyzeCmt
